/-
Verification of the bevy_migrate transformation engine and migration
orchestrator.

The development shallowly embeds the Python sources:
  * `src/core/ast_processor.py`  — rule application, regex fallback,
    byte-exact callback splicing;
  * `src/core/migration_engine.py` — version validation, migration-path
    resolution, step execution.

External collaborators (the `re` substitution engine, `fnmatch`, the
`ast-grep` subprocess, the file system) are modelled as explicit function
parameters; everything the repository itself computes is embedded as
executable Lean definitions.
-/
import Mathlib

namespace BevyMigrate

/-! ### Data model (`ast_processor.py`)

`ASTTransformation` carries the attributes the processor reads:
the dataclass in the source declares `file_patterns`, `callback`,
`rule_yaml`, and the processor additionally reads the `pattern`,
`replacement` and `description` attributes of each rule object.
The callback and the yaml rule are abstracted into the oracle
parameters of the functions below. -/

structure ASTTransformation where
  pattern : String
  replacement : String
  description : String
  file_patterns : List String
deriving DecidableEq, Repr

/-- `TransformationResult` from `ast_processor.py` (lines 31-39). -/
structure TransformationResult where
  file_path : String
  original_content : String
  transformed_content : String
  applied_transformations : List String
  success : Bool
  error_message : Option String
deriving DecidableEq, Repr

/-! ### The regex fallback (`_convert_ast_pattern_to_regex`, lines 334-353)

Python `str.replace` scans left to right and replaces each
non-overlapping occurrence.  The fuel argument bounds the number of
iterations; every iteration consumes at least one character, so fuel
equal to the length of the input makes the function total and faithful.
(`str.replace` with an empty search string is never exercised by the
source: all four search strings are non-empty literals.) -/

def replaceListF (old new : List Char) : Nat → List Char → List Char
  | _, [] => []
  | 0, l => l
  | fuel + 1, c :: rest =>
    if old ≠ [] ∧ old.isPrefixOf (c :: rest) then
      new ++ replaceListF old new fuel ((c :: rest).drop old.length)
    else
      c :: replaceListF old new fuel rest

/-- Python `str.replace old new` on strings. -/
def pyReplace (old new s : String) : String :=
  ⟨replaceListF old.data new.data s.data.length s.data⟩

/-- The characters `re.escape` (Python ≥ 3.7) prefixes with a backslash:
`()[]\x7b\x7d?*+-|^$\.&~#` together with space, tab, newline, carriage
return, vertical tab and form feed. -/
def pyReSpecialChars : List Char :=
  "()[]?*+-|^$\\.&~# \t\n\r".data ++ [Char.ofNat 123, Char.ofNat 125, Char.ofNat 11, Char.ofNat 12]

/-- Python `re.escape`. -/
def pyReEscape (s : String) : String :=
  ⟨s.data.flatMap (fun c => if c ∈ pyReSpecialChars then ['\\', c] else [c])⟩

/-- `ASTProcessor._convert_ast_pattern_to_regex` (lines 334-353):
replace `$_` with `(\w+)` and `$$$` with `(.*?)`, escape everything,
then try to un-escape the two groups.  The first un-escape search string
is Python raw `r"\(\\\w\+\)"` and the second `r"\(\.\*\?\)"`. -/
def convertAstPatternToRegex (astPattern : String) : String :=
  let p1 := pyReplace "$_" "(\\w+)" astPattern
  let p2 := pyReplace "$$$" "(.*?)" p1
  let p3 := pyReEscape p2
  let p4 := pyReplace "\\(\\\\\\w\\+\\)" "(\\w+)" p3
  pyReplace "\\(\\.\\*\\?\\)" "(.*?)" p4

/-- `ASTProcessor._apply_regex_transformation` (lines 313-332).
`reSub pat repl content` models `re.sub(pat, repl, content,
flags=re.MULTILINE)`; a `none` result models any raised exception
(a failed regex compile or a failed application), which the source
catches, returning the input text unchanged. -/
def applyRegexTransformation (reSub : String → String → String → Option String)
    (content : String) (t : ASTTransformation) : String :=
  match reSub (convertAstPatternToRegex t.pattern) t.replacement content with
  | some r => r
  | none => content

/-! ### Single-rule application and the per-file loop (`_process_file`) -/

/-- `ASTProcessor._apply_single_transformation` (lines 185-204).
`astGrep content t` models `_apply_ast_grep_transformation`; that
function catches its own exceptions and returns `None` on any failure,
upon which the source falls back to the regex path (the enclosing
`except` at lines 202-204 leads to the same regex fallback). -/
def applySingleTransformation (astGrepAvailable : Bool)
    (astGrep : String → ASTTransformation → Option String)
    (reSub : String → String → String → Option String)
    (content : String) (t : ASTTransformation) : String :=
  if astGrepAvailable then
    match astGrep content t with
    | some r => r
    | none => applyRegexTransformation reSub content t
  else
    applyRegexTransformation reSub content t

/-- `ASTProcessor._should_apply_transformation` (lines 168-183).
`fnmatch name pat` models Python `fnmatch.fnmatch`. -/
def shouldApplyTransformation (fnmatch : String → String → Bool)
    (fileName relativePath : String) (t : ASTTransformation) : Bool :=
  t.file_patterns.any (fun pat => fnmatch fileName pat || fnmatch relativePath pat)

/-- One iteration of the rule loop of `_process_file` (lines 131-142),
acting on the pair (current text, applied descriptions).
`gate t` models `_should_apply_transformation(file_path, t)` and
`apply1 c t` models `_apply_single_transformation(c, t, file_path)`. -/
def processStep (gate : ASTTransformation → Bool)
    (apply1 : String → ASTTransformation → String)
    (acc : String × List String) (t : ASTTransformation) : String × List String :=
  if gate t then
    let n := apply1 acc.1 t
    if n ≠ acc.1 then (n, acc.2 ++ [t.description]) else acc
  else acc

/-- The rule loop of `_process_file` (lines 127-142): fold the rule
list through `processStep`, starting from the file content and an
empty applied list. -/
def processTransformations (gate : ASTTransformation → Bool)
    (apply1 : String → ASTTransformation → String)
    (content : String) (ts : List ASTTransformation) : String × List String :=
  ts.foldl (processStep gate apply1) (content, [])

/-- The text produced by one loop iteration, ignoring bookkeeping. -/
def stepText (gate : ASTTransformation → Bool)
    (apply1 : String → ASTTransformation → String)
    (content : String) (t : ASTTransformation) : String :=
  if gate t then apply1 content t else content

/-- Reference bookkeeping: the descriptions of exactly those rules whose
application changed the text at their turn in the sequence. -/
def changedDescs (gate : ASTTransformation → Bool)
    (apply1 : String → ASTTransformation → String)
    (content : String) : List ASTTransformation → List String
  | [] => []
  | t :: ts =>
    let c := stepText gate apply1 content t
    (if c ≠ content then [t.description] else []) ++ changedDescs gate apply1 c ts

/-- The failed `TransformationResult` built by the two `except` branches
(`apply_transformations` lines 107-114 and `_process_file` lines 159-166):
empty contents, empty applied list, `success=False`, the message set. -/
def failedResult (path msg : String) : TransformationResult :=
  { file_path := path
    original_content := ""
    transformed_content := ""
    applied_transformations := []
    success := false
    error_message := some msg }

/-- `ASTProcessor._process_file` (lines 118-166).  `readResult` models
`file_path.read_text()`: `Except.error e` is a raised read exception,
caught by the `except` branch.  The second component of the result is
the disk write performed at lines 144-147: `some w` means the file is
overwritten with `w`, `none` means no write happens. -/
def processFile (gate : ASTTransformation → Bool)
    (apply1 : String → ASTTransformation → String)
    (dryRun : Bool) (path : String) (readResult : Except String String)
    (ts : List ASTTransformation) : TransformationResult × Option String :=
  match readResult with
  | Except.error e => (failedResult path e, none)
  | Except.ok original =>
    let r := processTransformations gate apply1 original ts
    let write : Option String :=
      if dryRun = false ∧ r.1 ≠ original then some r.1 else none
    ({ file_path := path
       original_content := original
       transformed_content := r.1
       applied_transformations := r.2
       success := true
       error_message := none }, write)

/-- `ASTProcessor.apply_transformations` (lines 84-116): process every
file of the list in order, collecting one result per file.  `fs p`
models reading file `p`.  (The `except` branch of the outer loop can
only fire on exceptions `_process_file` lets through; `_process_file`
catches all of its own, so the per-file catch is realised inside
`processFile`.) -/
def applyTransformations (gate : ASTTransformation → Bool)
    (apply1 : String → ASTTransformation → String)
    (dryRun : Bool) (fs : String → Except String String)
    (paths : List String) (ts : List ASTTransformation) : List TransformationResult :=
  paths.map (fun p => (processFile gate apply1 dryRun p (fs p) ts).1)

/-! ### Byte-exact callback splicing (`_apply_ast_grep_transformation`,
lines 249-269)

When a rule has a callback, the source collects the `ast-grep` matches,
sorts them by start byte offset in descending order and splices each
callback result into the byte representation of the text.  Bytes are
modelled as `List Nat`; a match is a byte range plus the
`metaVariables.single` captures reported by `ast-grep`. -/

/-- One `ast-grep` match: `range.byteOffset.start`, `range.byteOffset.end`
and the `metaVariables.single` entries as (name, text) pairs. -/
structure AGMatch where
  start : Nat
  stop : Nat
  single : List (String × String)
deriving DecidableEq, Repr

/-- The `meta_vars` dictionary built at lines 255-260: only the
`single` metavariable captures are copied in. -/
def extractMetaVars (m : AGMatch) : List (String × String) :=
  m.single

/-- The splice at line 267:
`new_content_bytes[:start] + replacement_bytes + new_content_bytes[end:]`. -/
def spliceOne (bytes : List Nat) (s e : Nat) (repl : List Nat) : List Nat :=
  bytes.take s ++ repl ++ bytes.drop e

/-- Insertion into a list kept in descending start-offset order. -/
def insertDesc (m : AGMatch) : List AGMatch → List AGMatch
  | [] => [m]
  | x :: xs => if x.start ≤ m.start then m :: x :: xs else x :: insertDesc m xs

/-- `matches.sort(key=..., reverse=True)` at line 251: sort the match
list by start offset, descending. -/
def sortByStartDesc (ms : List AGMatch) : List AGMatch :=
  ms.foldr insertDesc []

/-- The loop at lines 251-268: sort descending, then for each match
compute the callback replacement from the extracted metavariables and
splice it over the match's byte range.  `cb vars` models
`transformation.callback(meta_vars, file_path).encode('utf-8')` with the
file path fixed. -/
def applyCallbackMatches (cb : List (String × String) → List Nat)
    (bytes : List Nat) (ms : List AGMatch) : List Nat :=
  (sortByStartDesc ms).foldl
    (fun acc m => spliceOne acc m.start m.stop (cb (extractMetaVars m))) bytes

/-- Shift a match left by `d` bytes. -/
def shiftMatch (d : Nat) (m : AGMatch) : AGMatch :=
  { m with start := m.start - d, stop := m.stop - d }

/-- The intended result of splicing, with `offset` the number of bytes
of the original text already consumed: the remaining text with each
matched span replaced by its callback's output, left to right. -/
def spliceSpecAux (cb : List (String × String) → List Nat)
    (bytes : List Nat) (offset : Nat) : List AGMatch → List Nat
  | [] => bytes
  | m :: ms =>
    bytes.take (m.start - offset) ++ cb m.single ++
      spliceSpecAux cb (bytes.drop (m.stop - offset)) m.stop ms

/-- The intended result of splicing: the text with each matched byte
span replaced by its callback's output, spans processed left to right. -/
def spliceSpec (cb : List (String × String) → List Nat)
    (bytes : List Nat) (ms : List AGMatch) : List Nat :=
  spliceSpecAux cb bytes 0 ms

/-- Descending-order splicing, relativized: the matches carry absolute
byte offsets, `bytes` is the suffix of the original text starting at
byte `offset`, and the matches are applied from the last to the first
(the fold the sorted loop performs). -/
def spliceFoldr (cb : List (String × String) → List Nat) (offset : Nat)
    (bytes : List Nat) (ms : List AGMatch) : List Nat :=
  ms.foldr (fun m acc => spliceOne acc (m.start - offset) (m.stop - offset) (cb m.single)) bytes

/-- Well-formed match lists: listed in ascending start order, with
non-overlapping in-bounds spans (`lb` is a lower bound on the next
start, `len` the byte length of the text).  The `m.start + 1` in the
recursive bound makes the start offsets strictly increasing, which the
non-overlap guarantee of the backend provides for distinct matches. -/
def okMatches (lb len : Nat) : List AGMatch → Bool
  | [] => true
  | m :: ms =>
    decide (lb ≤ m.start) && decide (m.start ≤ m.stop) && decide (m.stop ≤ len) &&
      okMatches (max (m.start + 1) m.stop) len ms

/-- UTF-8 encoding of a single code point. -/
def utf8EncodeChar (n : Nat) : List Nat :=
  if n < 128 then [n]
  else if n < 2048 then [192 + n / 64, 128 + n % 64]
  else if n < 65536 then [224 + n / 4096, 128 + n / 64 % 64, 128 + n % 64]
  else [240 + n / 262144, 128 + n / 4096 % 64, 128 + n / 64 % 64, 128 + n % 64]

/-- `content.encode('utf-8')` as a list of byte values. -/
def encodeUtf8 (s : String) : List Nat :=
  s.data.flatMap (fun c => utf8EncodeChar c.toNat)

/-- Python substring containment (`needle in hay`) on character lists. -/
def listIsInfix (needle : List Char) : List Char → Bool
  | [] => decide (needle = [])
  | c :: rest => needle.isPrefixOf (c :: rest) || listIsInfix needle rest

/-- `set_parent_callback` from
`src/bevymigrate/migrations/v0_15_to_0_16.py` (lines 62-66): read the
`_matched_text` binding (defaulting to the empty string), return it
unchanged unless it contains `.set_parent(`, otherwise rewrite it with
`re.sub` (modelled by the `subst` parameter, which the early-return path
never reaches). -/
def set_parent_callback (subst : String → String)
    (vars : List (String × String)) : String :=
  let full := (vars.lookup "_matched_text").getD ""
  if listIsInfix ".set_parent(".data full.data = false then full
  else subst full

/-! ### Migration orchestrator (`migration_engine.py`) -/

/-- `supported_versions` (line 137). -/
def supportedVersions : List String :=
  ["0.12", "0.13", "0.14", "0.15", "0.16", "0.17", "0.18"]

/-- The `version_order` dictionary (line 148): index in the supported
list. -/
def versionOrder (v : String) : Option Nat :=
  supportedVersions.indexOf? v

/-- `MigrationEngine._validate_versions` (lines 135-153). -/
def validateVersions (fromVersion toVersion : String) : Bool :=
  match versionOrder fromVersion, versionOrder toVersion with
  | some i, some j => decide (i < j)
  | _, _ => false

/-- The `_version_progression` mapping (lines 70-80). -/
def versionProgression (v : String) : Option String :=
  [("0.12", "0.13"), ("0.13", "0.14"), ("0.14", "0.15-part1"),
   ("0.15-part1", "0.15"), ("0.15", "0.16"), ("0.16", "0.17-part1"),
   ("0.17-part1", "0.17-part2"), ("0.17-part2", "0.17"),
   ("0.17", "0.18")].lookup v

/-- The keys of `_migration_registry` (lines 57-67). -/
def migrationRegistryKeys : List String :=
  ["0.12->0.13", "0.13->0.14", "0.14->0.15-part1", "0.15-part1->0.15",
   "0.15->0.16", "0.16->0.17-part1", "0.17-part1->0.17-part2",
   "0.17-part2->0.17", "0.17->0.18"]

/-- The `while` loop of `_get_migration_path` (lines 162-179).  The
source bounds the loop by failing once the path exceeds 10 steps; the
fuel argument makes the recursion structural, and with initial fuel 12
(one more than the maximum 11 iterations the length check admits) the
fuel-exhausted branch is unreachable. -/
def pathLoopF : Nat → String → String → List (String × String) → List (String × String)
  | 0, _, _, _ => []
  | fuel + 1, current, target, path =>
    if current = target then path
    else
      match versionProgression current with
      | none => []
      | some nxt =>
        let path1 := path ++ [(current, nxt)]
        if 10 < path1.length then [] else pathLoopF fuel nxt target path1

/-- `MigrationEngine._get_migration_path` (lines 155-179). -/
def getMigrationPath (fromVersion toVersion : String) : List (String × String) :=
  pathLoopF 12 fromVersion toVersion []

/-- The externally observable actions of `MigrationEngine.migrate`:
creating the backup, executing one migration step, rewriting the
project version in `Cargo.toml`. -/
inductive MigAction where
  | backup : MigAction
  | step : String → String → MigAction
  | updateVersion : MigAction
deriving DecidableEq, Repr

/-- `MigrationEngine._execute_migration_step` (lines 181-209): fail if
the step key is unregistered, otherwise run the migration
(`execRes f t` models `migration.execute()` together with its exception
handler). -/
def executeMigrationStep (execRes : String → String → Bool)
    (f t : String) : Bool :=
  if (f ++ "->" ++ t) ∈ migrationRegistryKeys then execRes f t else false

/-- The step loop of `migrate` (lines 119-122): execute steps in order,
stopping at the first failure; returns overall success and the attempted
steps. -/
def runSteps (execRes : String → String → Bool) :
    List (String × String) → Bool × List (String × String)
  | [] => (true, [])
  | (f, t) :: rest =>
    if executeMigrationStep execRes f t then
      let r := runSteps execRes rest
      (r.1, (f, t) :: r.2)
    else (false, [(f, t)])

/-- `MigrationEngine.migrate` (lines 86-133), with its observable
actions: validate the versions, create a backup unless in dry-run mode
(`backupOk` models `_create_backup()`), resolve the migration path,
execute the steps in order, and finally update the project version. -/
def migrate (execRes : String → String → Bool) (backupOk dryRun : Bool)
    (fromVersion toVersion : String) : Bool × List MigAction :=
  if validateVersions fromVersion toVersion = false then (false, [])
  else if dryRun = false ∧ backupOk = false then (false, [])
  else
    let pre : List MigAction := if dryRun then [] else [MigAction.backup]
    let steps := getMigrationPath fromVersion toVersion
    if steps.isEmpty then (false, pre)
    else
      let r := runSteps execRes steps
      let acts := pre ++ r.2.map (fun s => MigAction.step s.1 s.2)
      if r.1 then (true, acts ++ (if dryRun then [] else [MigAction.updateVersion]))
      else (false, acts)

/-! ### Supporting lemmas for the rule loop -/

theorem processStep_fst (gate : ASTTransformation → Bool)
    (apply1 : String → ASTTransformation → String)
    (acc : String × List String) (t : ASTTransformation) :
    (processStep gate apply1 acc t).1 = stepText gate apply1 acc.1 t := by
  unfold processStep stepText
  by_cases hg : gate t
  · simp only [hg, if_true]
    by_cases hn : apply1 acc.1 t ≠ acc.1
    · simp [hn]
    · simp only [ne_eq, not_not] at hn
      simp [hn]
  · simp [hg]

theorem foldl_processStep_fst (gate : ASTTransformation → Bool)
    (apply1 : String → ASTTransformation → String) :
    ∀ (ts : List ASTTransformation) (acc : String × List String),
      (ts.foldl (processStep gate apply1) acc).1
        = ts.foldl (stepText gate apply1) acc.1 := by
  intro ts
  induction ts with
  | nil => intro acc; rfl
  | cons t ts ih =>
      intro acc
      simp only [List.foldl_cons]
      rw [ih, processStep_fst]

theorem processTransformations_fst (gate : ASTTransformation → Bool)
    (apply1 : String → ASTTransformation → String)
    (content : String) (ts : List ASTTransformation) :
    (processTransformations gate apply1 content ts).1
      = ts.foldl (stepText gate apply1) content := by
  unfold processTransformations
  rw [foldl_processStep_fst]

theorem foldl_processStep_snd (gate : ASTTransformation → Bool)
    (apply1 : String → ASTTransformation → String) :
    ∀ (ts : List ASTTransformation) (c : String) (acc : List String),
      (ts.foldl (processStep gate apply1) (c, acc)).2
        = acc ++ changedDescs gate apply1 c ts := by
  intro ts
  induction ts with
  | nil => intro c acc; simp [changedDescs]
  | cons t ts ih =>
      intro c acc
      simp only [List.foldl_cons, changedDescs]
      by_cases hg : gate t
      · by_cases hn : apply1 c t ≠ c
        · have hstep : processStep gate apply1 (c, acc) t
              = (apply1 c t, acc ++ [t.description]) := by
            simp [processStep, hg, hn]
          have hs : stepText gate apply1 c t = apply1 c t := by
            simp [stepText, hg]
          rw [hstep, ih, hs]
          simp [hn]
        · simp only [ne_eq, not_not] at hn
          have hstep : processStep gate apply1 (c, acc) t = (c, acc) := by
            simp [processStep, hg, hn]
          have hs : stepText gate apply1 c t = c := by
            simp [stepText, hg, hn]
          rw [hstep, ih, hs]
          simp
      · have hstep : processStep gate apply1 (c, acc) t = (c, acc) := by
          simp [processStep, hg]
        have hs : stepText gate apply1 c t = c := by
          simp [stepText, hg]
        rw [hstep, ih, hs]
        simp

/-! ### C1 — sequential rule composition -/

/-- C1: the engine applies the rules of a list in order, each rule
operating on the output of the previous rule, so the text produced by
processing `[R1, R2]` equals the text produced by processing `[R2]` on
the result of processing `[R1]` (for every gate, every single-rule
applier and every starting text). -/
theorem rule_composition_sequential
    (gate : ASTTransformation → Bool)
    (apply1 : String → ASTTransformation → String)
    (S : String) (R1 R2 : ASTTransformation) :
    (processTransformations gate apply1 S [R1, R2]).1
      = (processTransformations gate apply1
          (processTransformations gate apply1 S [R1]).1 [R2]).1 := by
  simp [processTransformations_fst]

/-! ### C5 — applied-transformations bookkeeping -/

/-- C5: a rule's description is recorded in `applied_transformations`
exactly when applying that rule changed the text at its turn: the
recorded list equals the list of descriptions of the rules whose
one-step application altered the running text. -/
theorem applied_iff_changed
    (gate : ASTTransformation → Bool)
    (apply1 : String → ASTTransformation → String)
    (content : String) (ts : List ASTTransformation) :
    (processTransformations gate apply1 content ts).2
      = changedDescs gate apply1 content ts := by
  unfold processTransformations
  rw [foldl_processStep_snd]
  simp

/-! ### C3 — disk write policy -/

/-- C3: processing a file writes it back exactly when `dryRun` is false
and the final transformed text differs from the original; a failed read
never writes; and under `dryRun = true` no file is ever written,
whatever the read result and the transformation outcome. -/
theorem write_policy
    (gate : ASTTransformation → Bool)
    (apply1 : String → ASTTransformation → String)
    (dryRun : Bool) (path original e : String)
    (readResult : Except String String) (ts : List ASTTransformation) :
    (processFile gate apply1 dryRun path (Except.ok original) ts).2
      = (if dryRun = false ∧ (processTransformations gate apply1 original ts).1 ≠ original
         then some (processTransformations gate apply1 original ts).1
         else none)
    ∧ (processFile gate apply1 dryRun path (Except.error e) ts).2 = none
    ∧ (processFile gate apply1 true path readResult ts).2 = none := by
  refine ⟨rfl, rfl, ?_⟩
  cases readResult with
  | error e => rfl
  | ok original =>
      simp [processFile]

/-! ### C4 — per-file exception isolation -/

/-- C4: an exception raised while processing one file is recorded as a
failed `TransformationResult` for that file only; every file before and
after it in the list is still processed and reported exactly as it
would have been on its own. -/
theorem batch_resilience
    (gate : ASTTransformation → Bool)
    (apply1 : String → ASTTransformation → String)
    (dryRun : Bool) (fs : String → Except String String)
    (pre : List String) (p : String) (suf : List String)
    (ts : List ASTTransformation) (e : String)
    (h : fs p = Except.error e) :
    applyTransformations gate apply1 dryRun fs (pre ++ p :: suf) ts
      = applyTransformations gate apply1 dryRun fs pre ts
        ++ failedResult p e :: applyTransformations gate apply1 dryRun fs suf ts := by
  unfold applyTransformations
  rw [List.map_append, List.map_cons]
  simp [processFile, h]

/-- Witness for C4 at a concrete batch: reading file `b` fails with
message `boom` while `a` and `c` are read fine. -/
theorem batch_resilience_witness :
    (fun q => if q = "b" then Except.error "boom" else Except.ok "x") "b"
        = (Except.error "boom" : Except String String)
    ∧ applyTransformations (fun _ => true) (fun c _ => c) false
        (fun q => if q = "b" then Except.error "boom" else Except.ok "x")
        (["a"] ++ "b" :: ["c"]) []
      = applyTransformations (fun _ => true) (fun c _ => c) false
          (fun q => if q = "b" then Except.error "boom" else Except.ok "x") ["a"] []
        ++ failedResult "b" "boom"
          :: applyTransformations (fun _ => true) (fun c _ => c) false
              (fun q => if q = "b" then Except.error "boom" else Except.ok "x") ["c"] [] :=
  ⟨rfl, batch_resilience (fun _ => true) (fun c _ => c) false
      (fun q => if q = "b" then Except.error "boom" else Except.ok "x")
      ["a"] "b" ["c"] [] "boom" rfl⟩

/-! ### C10 — result-list shape invariants -/

/-- C10: `apply_transformations` returns exactly one result per input
file, in input order (the i-th result carries the i-th path), and any
result with `success = false` has empty original content, empty
transformed content and an empty applied-transformations list. -/
theorem results_shape
    (gate : ASTTransformation → Bool)
    (apply1 : String → ASTTransformation → String)
    (dryRun : Bool) (fs : String → Except String String)
    (paths : List String) (ts : List ASTTransformation) :
    (applyTransformations gate apply1 dryRun fs paths ts).length = paths.length
    ∧ ∀ i r, (applyTransformations gate apply1 dryRun fs paths ts).get? i = some r →
        paths.get? i = some r.file_path
        ∧ (r.success = false →
            r.original_content = "" ∧ r.transformed_content = ""
              ∧ r.applied_transformations = []) := by
  constructor
  · simp [applyTransformations]
  · intro i r hr
    unfold applyTransformations at hr
    rw [List.get?_eq_getElem?, List.getElem?_map, ← List.get?_eq_getElem?] at hr
    cases hp : paths.get? i with
    | none => rw [hp] at hr; simp at hr
    | some p =>
        rw [hp] at hr
        simp only [Option.map_some'] at hr
        have hr3 : r = (processFile gate apply1 dryRun p (fs p) ts).1 :=
          (Option.some.inj hr).symm
        subst hr3
        cases hfs : fs p with
        | error msg =>
            exact ⟨rfl, fun _ => ⟨rfl, rfl, rfl⟩⟩
        | ok original =>
            refine ⟨rfl, ?_⟩
            intro hfalse
            simp [processFile] at hfalse

/-- Witness for C10 at a concrete batch of one unreadable file. -/
theorem results_shape_witness :
    (applyTransformations (fun _ => true) (fun c _ => c) false
        (fun _ => Except.error "io") ["a"] []).length = (["a"] : List String).length
    ∧ (["a"] : List String).get? 0 = some (failedResult "a" "io").file_path
    ∧ ((failedResult "a" "io").success = false →
        (failedResult "a" "io").original_content = ""
          ∧ (failedResult "a" "io").transformed_content = ""
          ∧ (failedResult "a" "io").applied_transformations = []) := by
  refine ⟨(results_shape (fun _ => true) (fun c _ => c) false
      (fun _ => Except.error "io") ["a"] []).1, ?_⟩
  have h := (results_shape (fun _ => true) (fun c _ => c) false
      (fun _ => Except.error "io") ["a"] []).2 0 (failedResult "a" "io") rfl
  exact ⟨h.1, h.2⟩

/-! ### C6 — migration path resolution -/

/-- C6: with the registered consecutive steps `0.12→0.13` and
`0.13→0.14`, path resolution from `0.12` to `0.14` returns exactly
`[0.12→0.13, 0.13→0.14]` in order; resolution backwards
(`0.14` to `0.12`) and between identical versions (`0.12` to `0.12`)
yields no path, and `migrate` then reports failure while performing no
action at all — no backup, no migration step, no version update —
whatever the step executor, the backup outcome and the dry-run flag. -/
theorem migration_path_resolution :
    getMigrationPath "0.12" "0.14" = [("0.12", "0.13"), ("0.13", "0.14")]
    ∧ getMigrationPath "0.14" "0.12" = []
    ∧ getMigrationPath "0.12" "0.12" = []
    ∧ ∀ (execRes : String → String → Bool) (backupOk dryRun : Bool),
        migrate execRes backupOk dryRun "0.14" "0.12" = (false, [])
        ∧ migrate execRes backupOk dryRun "0.12" "0.12" = (false, []) := by
  refine ⟨rfl, rfl, rfl, ?_⟩
  intro execRes backupOk dryRun
  exact ⟨rfl, rfl⟩

/-! ### C7 — the regex-fallback pattern translation -/

/-- C7 counterexample: a single metavariable `$NAME` is not translated
to a capturing group at all.  For the pattern `Input<$T>` the derived
regex is exactly the escaped literal pattern — `$T` survives as the
literal text `\$T` and the regex contains no `(` and hence no capturing
group, contradicting the claimed translation. -/
theorem single_metavar_not_translated :
    convertAstPatternToRegex "Input<$T>" = pyReEscape "Input<$T>"
    ∧ convertAstPatternToRegex "Input<$T>" = "Input<\\$T>"
    ∧ ¬ ('(' ∈ (convertAstPatternToRegex "Input<$T>").data) := by
  exact ⟨rfl, rfl, by decide⟩

/-- C7 amended: the translation only targets the anonymous
metavariable `$_` and the bare `$$$` marker.  `$$$NAME` becomes the
non-greedy group `(.*?)` with the metavariable name left behind as
literal regex text, so `foo($$$ARGS)` derives `foo\((.*?)ARGS\)`
(which requires the literal letters `ARGS` before the closing
parenthesis instead of matching `foo(1, 2, 3)`); a named `$NAME` is
left untranslated as escaped literal text; and even `$_` ends up as the
escaped literal `\(\\w\+\)` because the un-escape step searches for
`\(\\\w\+\)` (three backslashes) while escaping produced `\(\\w\+\)`
(two), so the restore never fires. -/
theorem fallback_translation_actual :
    convertAstPatternToRegex "foo($$$ARGS)" = "foo\\((.*?)ARGS\\)"
    ∧ convertAstPatternToRegex "Input<$T>" = "Input<\\$T>"
    ∧ convertAstPatternToRegex "$_" = "\\(\\\\w\\+\\)" := by
  exact ⟨rfl, rfl, rfl⟩

/-! ### C8 — the regex fallback never raises -/

/-- C8: the regex fallback is total.  Whatever `re.sub` does — succeed
with some output or raise (compile failure or application failure,
modelled by `none`) — `_apply_regex_transformation` returns: on a
raised exception it returns the input text unchanged, and on success it
returns the substitution result. -/
theorem regex_fallback_never_throws
    (reSub : String → String → String → Option String)
    (content : String) (t : ASTTransformation) :
    (reSub (convertAstPatternToRegex t.pattern) t.replacement content = none →
      applyRegexTransformation reSub content t = content)
    ∧ ∀ r, reSub (convertAstPatternToRegex t.pattern) t.replacement content = some r →
        applyRegexTransformation reSub content t = r := by
  constructor
  · intro h
    simp [applyRegexTransformation, h]
  · intro r h
    simp [applyRegexTransformation, h]

/-- Witness for C8: a `re.sub` oracle that always raises leaves the
text `fn main()` unchanged. -/
theorem regex_fallback_never_throws_witness :
    ((fun _ _ _ => none : String → String → String → Option String)
        (convertAstPatternToRegex
          (ASTTransformation.mk "Input<$T>" "ButtonInput<$T>" "rename Input" ["*.rs"]).pattern)
        (ASTTransformation.mk "Input<$T>" "ButtonInput<$T>" "rename Input" ["*.rs"]).replacement
        "fn main()" = none)
    ∧ applyRegexTransformation (fun _ _ _ => none) "fn main()"
        (ASTTransformation.mk "Input<$T>" "ButtonInput<$T>" "rename Input" ["*.rs"])
      = "fn main()" :=
  ⟨rfl, (regex_fallback_never_throws (fun _ _ _ => none) "fn main()"
      (ASTTransformation.mk "Input<$T>" "ButtonInput<$T>" "rename Input" ["*.rs"])).1 rfl⟩

/-! ### C9 — the `_matchedText` binding is never provided -/

/-- C9 (code bug): the binding set handed to a callback is built from
the `metaVariables.single` captures only; no `_matchedText` (nor
`_matched_text`) binding is ever inserted.  Evaluated at the match of
`$TARGET.set_parent($PARENT)` against
`commands.spawn_empty().set_parent(parent)`: both lookups come back
empty, and the repository's own `set_parent_callback`, which reads
`_matched_text` with an empty-string default, therefore returns `""` --
so the splice deletes the entire matched span instead of rewriting it,
whatever `re.sub` oracle the callback would have used on its other
path. -/
theorem matched_text_binding_missing (subst : String → String) :
    (extractMetaVars
        (AGMatch.mk 0 41
          [("TARGET", "commands.spawn_empty()"), ("PARENT", "parent")])).lookup "_matchedText"
      = none
    ∧ (extractMetaVars
        (AGMatch.mk 0 41
          [("TARGET", "commands.spawn_empty()"), ("PARENT", "parent")])).lookup "_matched_text"
      = none
    ∧ applyCallbackMatches
        (fun vars => encodeUtf8 (set_parent_callback subst vars))
        (encodeUtf8 "commands.spawn_empty().set_parent(parent)")
        [AGMatch.mk 0 41
          [("TARGET", "commands.spawn_empty()"), ("PARENT", "parent")]]
      = [] := by
  exact ⟨rfl, rfl, rfl⟩

/-! ### Supporting lemmas for C2 — descending-order byte splicing -/

theorem okMatches_cons_iff (lb len : Nat) (m : AGMatch) (ms : List AGMatch) :
    okMatches lb len (m :: ms) = true
      ↔ lb ≤ m.start ∧ m.start ≤ m.stop ∧ m.stop ≤ len
          ∧ okMatches (max (m.start + 1) m.stop) len ms = true := by
  simp [okMatches, Bool.and_eq_true, decide_eq_true_eq, and_assoc]

theorem okMatches_weaken {lb lb2 len : Nat} {ms : List AGMatch}
    (hle : lb2 ≤ lb) (h : okMatches lb len ms = true) :
    okMatches lb2 len ms = true := by
  cases ms with
  | nil => rfl
  | cons m ms =>
      rw [okMatches_cons_iff] at h ⊢
      exact ⟨le_trans hle h.1, h.2⟩

theorem okMatches_mem_bounds {lb len : Nat} {ms : List AGMatch} :
    okMatches lb len ms = true →
      ∀ x ∈ ms, lb ≤ x.start ∧ x.start ≤ x.stop ∧ x.stop ≤ len := by
  induction ms generalizing lb with
  | nil => intro _ x hx; exact absurd hx (List.not_mem_nil x)
  | cons m ms ih =>
      intro h x hx
      rw [okMatches_cons_iff] at h
      rcases List.mem_cons.mp hx with hx | hx
      · subst hx; exact ⟨h.1, h.2.1, h.2.2.1⟩
      · have hrec := ih h.2.2.2 x hx
        refine ⟨?_, hrec.2.1, hrec.2.2⟩
        have : m.start + 1 ≤ x.start :=
          le_trans (le_max_left _ _) hrec.1
        omega

theorem insertDesc_of_lt {m : AGMatch} {l : List AGMatch}
    (h : ∀ x ∈ l, m.start < x.start) :
    insertDesc m l = l ++ [m] := by
  induction l with
  | nil => rfl
  | cons x xs ih =>
      have hx : m.start < x.start := h x (List.mem_cons_self x xs)
      have : ¬ x.start ≤ m.start := by omega
      simp only [insertDesc, if_neg this, List.cons_append]
      rw [ih]
      intro y hy
      exact h y (List.mem_cons_of_mem x hy)

theorem sortByStartDesc_eq_reverse {lb len : Nat} {ms : List AGMatch}
    (h : okMatches lb len ms = true) :
    sortByStartDesc ms = ms.reverse := by
  induction ms generalizing lb with
  | nil => rfl
  | cons m ms ih =>
      rw [okMatches_cons_iff] at h
      have hsort : sortByStartDesc (m :: ms) = insertDesc m (sortByStartDesc ms) := rfl
      rw [hsort, ih h.2.2.2, insertDesc_of_lt, List.reverse_cons]
      intro x hx
      have hb := okMatches_mem_bounds h.2.2.2 x (List.mem_reverse.mp hx)
      have : m.start + 1 ≤ x.start := le_trans (le_max_left _ _) hb.1
      omega

theorem spliceFoldr_shift (cb : List (String × String) → List Nat)
    {offset d : Nat} {ms : List AGMatch} {bytes : List Nat}
    (hmem : ∀ x ∈ ms, d ≤ x.start ∧ x.start ≤ x.stop)
    (hod : offset ≤ d) (hdlen : d - offset ≤ bytes.length) :
    spliceFoldr cb offset bytes ms
      = bytes.take (d - offset) ++ spliceFoldr cb d (bytes.drop (d - offset)) ms := by
  induction ms with
  | nil =>
      simp only [spliceFoldr, List.foldr_nil]
      exact (List.take_append_drop (d - offset) bytes).symm
  | cons x xs ih =>
      have hx := hmem x (List.mem_cons_self x xs)
      have hxs : ∀ y ∈ xs, d ≤ y.start ∧ y.start ≤ y.stop :=
        fun y hy => hmem y (List.mem_cons_of_mem x hy)
      simp only [spliceFoldr, List.foldr_cons] at ih ⊢
      rw [ih hxs]
      set P := bytes.take (d - offset) with hP
      set Y := List.foldr
        (fun m acc => spliceOne acc (m.start - d) (m.stop - d) (cb m.single))
        (bytes.drop (d - offset)) xs with hY
      have hPlen : P.length = d - offset := by
        rw [hP, List.length_take]
        omega
      have hsd : P.length ≤ x.start - offset := by omega
      have hed : P.length ≤ x.stop - offset := by omega
      unfold spliceOne
      rw [List.take_append_eq_append_take, List.drop_append_eq_append_drop]
      rw [List.take_of_length_le hsd, List.drop_eq_nil_of_le hed]
      rw [hPlen]
      have h1 : x.start - offset - (d - offset) = x.start - d := by omega
      have h2 : x.stop - offset - (d - offset) = x.stop - d := by omega
      rw [h1, h2]
      simp [List.append_assoc]

theorem spliceFoldr_eq_spliceSpecAux (cb : List (String × String) → List Nat) :
    ∀ (ms : List AGMatch) (bytes : List Nat) (offset : Nat),
      okMatches offset (offset + bytes.length) ms = true →
        spliceFoldr cb offset bytes ms = spliceSpecAux cb bytes offset ms := by
  intro ms
  induction ms with
  | nil => intro bytes offset _; rfl
  | cons m ms ih =>
      intro bytes offset h
      rw [okMatches_cons_iff] at h
      obtain ⟨hlb, hse, helen, hrest⟩ := h
      have hmem : ∀ x ∈ ms, m.stop ≤ x.start ∧ x.start ≤ x.stop := by
        intro x hx
        have hb := okMatches_mem_bounds hrest x hx
        have : m.stop ≤ max (m.start + 1) m.stop := le_max_right _ _
        exact ⟨le_trans this hb.1, hb.2.1⟩
      have hod : offset ≤ m.stop := le_trans hlb hse
      have hdlen : m.stop - offset ≤ bytes.length := by omega
      have hshift := spliceFoldr_shift cb hmem hod hdlen
      simp only [spliceFoldr, List.foldr_cons] at hshift ⊢
      rw [hshift]
      set P := bytes.take (m.stop - offset) with hP
      set Y := List.foldr
        (fun x acc => spliceOne acc (x.start - m.stop) (x.stop - m.stop) (cb x.single))
        (bytes.drop (m.stop - offset)) ms with hY
      have hPlen : P.length = m.stop - offset := by
        rw [hP, List.length_take]
        omega
      unfold spliceOne
      rw [List.take_append_eq_append_take, List.drop_append_eq_append_drop]
      have htk : P.take (m.start - offset) = bytes.take (m.start - offset) := by
        rw [hP, List.take_take]
        congr 1
        omega
      have htk0 : m.start - offset - P.length = 0 := by omega
      have hdr : P.drop (m.stop - offset) = [] :=
        List.drop_eq_nil_of_le (by omega)
      have hdr0 : m.stop - offset - P.length = 0 := by omega
      rw [htk, htk0, hdr, hdr0, List.take_zero, List.drop_zero,
        List.append_nil, List.nil_append]
      have hrec : Y = spliceSpecAux cb (bytes.drop (m.stop - offset)) m.stop ms := by
        rw [hY]
        have hlen : m.stop + (bytes.drop (m.stop - offset)).length
            = offset + bytes.length := by
          rw [List.length_drop]
          omega
        have hok2 : okMatches m.stop
            (m.stop + (bytes.drop (m.stop - offset)).length) ms = true := by
          rw [hlen]
          exact okMatches_weaken (le_max_right _ _) hrest
        have := ih (bytes.drop (m.stop - offset)) m.stop hok2
        simpa [spliceFoldr] using this
      rw [hrec]
      rfl

/-! ### C2 — descending-order splice correctness -/

/-- C2: the callback splice loop — sort the matches by start byte
offset descending, then splice each callback result over its byte
range — computes, for every set of non-overlapping in-bounds matches
(given in ascending start order, as the backend reports them), exactly
the original byte string with each matched span replaced by its
callback's output; the descending processing order keeps the
not-yet-applied byte offsets valid. -/
theorem descending_splice_correct
    (cb : List (String × String) → List Nat)
    (bytes : List Nat) (ms : List AGMatch)
    (h : okMatches 0 bytes.length ms = true) :
    applyCallbackMatches cb bytes ms = spliceSpec cb bytes ms := by
  unfold applyCallbackMatches spliceSpec
  rw [sortByStartDesc_eq_reverse h, List.foldl_reverse]
  have hfun : (fun (m : AGMatch) (acc : List Nat) =>
        spliceOne acc m.start m.stop (cb (extractMetaVars m)))
      = fun m acc => spliceOne acc (m.start - 0) (m.stop - 0) (cb m.single) := by
    funext m acc
    simp [extractMetaVars]
  rw [hfun]
  have h0 : okMatches 0 (0 + bytes.length) ms = true := by
    simpa using h
  have := spliceFoldr_eq_spliceSpecAux cb ms bytes 0 h0
  simpa [spliceFoldr] using this

/-- Witness for C2: two matches over the ten-byte text `ab XY c ZW`,
replacing `XY` (bytes 3-5) with `12345` and `ZW` (bytes 8-10) with
nothing. -/
theorem descending_splice_correct_witness :
    okMatches 0 (encodeUtf8 "ab XY c ZW").length
        [AGMatch.mk 3 5 [("A", "XY")], AGMatch.mk 8 10 []] = true
    ∧ applyCallbackMatches
        (fun vars => if vars = [("A", "XY")] then encodeUtf8 "12345" else [])
        (encodeUtf8 "ab XY c ZW")
        [AGMatch.mk 3 5 [("A", "XY")], AGMatch.mk 8 10 []]
      = spliceSpec
          (fun vars => if vars = [("A", "XY")] then encodeUtf8 "12345" else [])
          (encodeUtf8 "ab XY c ZW")
          [AGMatch.mk 3 5 [("A", "XY")], AGMatch.mk 8 10 []] :=
  ⟨by decide, descending_splice_correct
      (fun vars => if vars = [("A", "XY")] then encodeUtf8 "12345" else [])
      (encodeUtf8 "ab XY c ZW")
      [AGMatch.mk 3 5 [("A", "XY")], AGMatch.mk 8 10 []] (by decide)⟩

end BevyMigrate
